import Mathlib

set_option maxHeartbeats 1000000

namespace Kit

/-- Byte sequences: a Go byte slice is modelled as a list of byte values. -/
abbrev Bytes := List Nat

/-- The UTF-8 bytes of a Go string, as produced by a byte-slice conversion. -/
def strBytes (s : String) : Bytes := s.toUTF8.toList.map (fun b => b.toNat)

/-- A Go error value together with its optional capabilities, as probed by
DefaultErrorEncoder (src/v2/server.go:55-76): msg is the result of Error();
marshalJSON is the json.Marshaler capability (none when the dynamic type does
not implement it, some none when MarshalJSON returns a non-nil error, and
some (some b) when it returns b with a nil error); statusCode is the
StatusCoder capability; headersCap is the Headerer capability. -/
structure GoError where
  msg : String
  marshalJSON : Option (Option Bytes)
  statusCode : Option Nat
  headersCap : Option (List (String × List String))
deriving DecidableEq

/-- Go http.Header: an association of header keys to lists of values. -/
structure Header where
  pairs : List (String × List String)
deriving DecidableEq

/-- Header.Set semantics on the underlying association list. -/
def setPairs : List (String × List String) → String → String → List (String × List String)
  | [], k, v => [(k, [v])]
  | (k', vs) :: rest, k, v =>
      if k' = k then (k, [v]) :: rest else (k', vs) :: setPairs rest k v

/-- Header.Add semantics on the underlying association list. -/
def addPairs : List (String × List String) → String → String → List (String × List String)
  | [], k, v => [(k, [v])]
  | (k', vs) :: rest, k, v =>
      if k' = k then (k', vs ++ [v]) :: rest else (k', vs) :: addPairs rest k v

def Header.set (h : Header) (k v : String) : Header := ⟨setPairs h.pairs k v⟩

def Header.add (h : Header) (k v : String) : Header := ⟨addPairs h.pairs k v⟩

def Header.get (h : Header) (k : String) : List String :=
  match h.pairs.find? (fun p => p.1 == k) with
  | some p => p.2
  | none => []

/-- The observable status/body calls made on the underlying transport
response writer, in order. -/
inductive WEvent where
  | writeHeader (code : Nat)
  | write (chunk : Bytes) (accepted : Nat) (err : Option GoError)
deriving DecidableEq

/-- The transport-supplied http.ResponseWriter: it owns the header map, and
its Write behaviour (how many bytes it accepts and which error it returns on
each successive Write call) is an arbitrary parameter of the model. Every
WriteHeader and Write call is recorded in order in events. -/
structure BaseWriter where
  accept : Nat → Bytes → Nat × Option GoError
  calls : Nat
  header : Header
  events : List WEvent

/-- A dynamic http.ResponseWriter value: either the transport writer itself,
or an interceptingWriter (src/v2/server.go:239-256) wrapping another writer
together with its recorded status code and cumulative written byte count. -/
inductive RW where
  | base (b : BaseWriter)
  | icept (inner : RW) (code : Nat) (written : Nat)

/-- Header().Set delegated through the writer chain (the interceptingWriter
embeds the wrapped writer, so header access passes through unchanged). -/
def RW.setH : RW → String → String → RW
  | .base b, k, v => .base { b with header := b.header.set k v }
  | .icept w c n, k, v => .icept (w.setH k v) c n

/-- Header().Add delegated through the writer chain. -/
def RW.addH : RW → String → String → RW
  | .base b, k, v => .base { b with header := b.header.add k v }
  | .icept w c n, k, v => .icept (w.addH k v) c n

/-- WriteHeader: the interceptingWriter records the code and delegates to the
wrapped writer (src/v2/server.go:247-250). -/
def RW.wHeader : RW → Nat → RW
  | .base b, c => .base { b with events := b.events ++ [WEvent.writeHeader c] }
  | .icept w _ n, c => .icept (w.wHeader c) c n

/-- Write: the interceptingWriter delegates to the wrapped writer, adds the
count of bytes the wrapped writer accepted to its cumulative total, and
returns the wrapped writer's result unchanged (src/v2/server.go:252-256). -/
def RW.wWrite : RW → Bytes → (Nat × Option GoError) × RW
  | .base b, p =>
      let res := b.accept b.calls p
      (res, .base { b with calls := b.calls + 1,
                           events := b.events ++ [WEvent.write p res.1 res.2] })
  | .icept w c n, p =>
      let res := w.wWrite p
      (res.1, .icept res.2 c (n + res.1.1))

/-- The underlying transport writer at the bottom of the chain. -/
def RW.baseOf : RW → BaseWriter
  | .base b => b
  | .icept w _ _ => w.baseOf

def RW.headerOf (w : RW) : Header := w.baseOf.header

def RW.eventsOf (w : RW) : List WEvent := w.baseOf.events

/-- The status code recorded by an interceptingWriter; 200 is the initial
value given at construction, and the base case never arises for the writer
the pipeline reads it from. -/
def RW.codeOf : RW → Nat
  | .base _ => 200
  | .icept _ c _ => c

/-- The cumulative byte count recorded by an interceptingWriter. -/
def RW.writtenOf : RW → Nat
  | .base _ => 0
  | .icept _ _ n => n

/-- Context keys: the response-observation keys used by the finalizer block
of ServeHTTP, plus opaque user keys. -/
inductive CtxKey where
  | responseHeaders
  | responseSize
  | user (n : Nat)
deriving DecidableEq

/-- Context values: observed headers, observed size, or opaque user data. -/
inductive CtxVal where
  | header (h : Header)
  | size (n : Nat)
  | user (n : Nat)
deriving DecidableEq

/-- A context.Context value chain: WithValue prepends a binding and lookup
finds the most recent one. -/
abbrev Ctx := List (CtxKey × CtxVal)

def withValue (ctx : Ctx) (k : CtxKey) (v : CtxVal) : Ctx := (k, v) :: ctx

def ctxValue (ctx : Ctx) (k : CtxKey) : Option CtxVal :=
  match ctx.find? (fun p => p.1 == k) with
  | some p => some p.2
  | none => none

/-- Ghost effect events: beacons emitted by instrumented components, the
error router's observations, and the arguments recording finalizers were
invoked with. -/
inductive Ev where
  | preHook (i : Nat)
  | decodeEv
  | handleEv
  | postHook (i : Nat)
  | encodeEv
  | errEncodeEv
  | finalTag (i : Nat)
  | handled (e : GoError)
  | finalized (i : Nat) (code : Nat) (ctx : Ctx)
deriving DecidableEq

/-- An inbound http request: its context and an opaque payload tag. -/
structure Req where
  context : Ctx
  payload : Nat

/-- A computation interacting with an http.ResponseWriter through its
interface: the embedding of component code that receives the writer. Such
code may set or add headers, read the header map, write a status code, write
body bytes (observing the accepted count and error of each write), and emit
ghost effects; it cannot replace the writer it was handed, matching Go
interface semantics. -/
inductive WProg (α : Type) where
  | pure (a : α)
  | emit (e : Ev) (k : WProg α)
  | setHeader (key val : String) (k : WProg α)
  | addHeader (key val : String) (k : WProg α)
  | getHeader (k : Header → WProg α)
  | writeHeader (code : Nat) (k : WProg α)
  | write (p : Bytes) (k : Nat × Option GoError → WProg α)

/-- Run a writer program against a writer, returning its result, the final
writer, and the ghost effects emitted, in program order. -/
def runW {α : Type} : WProg α → RW → α × RW × List Ev
  | .pure a, w => (a, w, [])
  | .emit e k, w =>
      let r := runW k w
      (r.1, r.2.1, e :: r.2.2)
  | .setHeader key v k, w => runW k (w.setH key v)
  | .addHeader key v k, w => runW k (w.addH key v)
  | .getHeader k, w => runW (k w.headerOf) w
  | .writeHeader c k, w => runW k (w.wHeader c)
  | .write p k, w =>
      let res := RW.wWrite w p
      let r := runW (k res.1) res.2
      (r.1, r.2.1, r.2.2)

/-- RequestFunc (src/v2/server.go:12): a pre-hook receives the context and
the request and returns a replacement context; its external side effects are
recorded as ghost events. -/
def RequestFunc := Ctx → Req → Ctx × List Ev

/-- DecodeRequestFunc (src/v2/server.go:37): extracts a typed request or
fails; it does not receive the response writer. -/
def DecodeRequestFunc (I : Type) := Ctx → Req → Except GoError I × List Ev

/-- HandlerFunc (src/v2/server.go:46): the business logic. -/
def HandlerFunc (I O : Type) := Ctx → I → Except GoError O × List Ev

/-- ServerResponseFunc (src/v2/server.go:215): a post-hook receives the
context and interacts with the response writer, returning a replacement
context. -/
def ServerResponseFunc := Ctx → WProg Ctx

/-- EncodeReponseFunc (src/v2/server.go:43): writes the typed response to
the response writer, or fails. -/
def EncodeReponseFunc (O : Type) := Ctx → O → WProg (Option GoError)

/-- ErrorEncoder (src/v2/server.go:18): renders an error to the writer. -/
def ErrorEncoder := Ctx → GoError → WProg Unit

/-- ServerFinalizerFunc (src/v2/server.go:31): runs at the end of a request
with the response code; its side effects are recorded as ghost events. -/
def ServerFinalizerFunc := Ctx → Nat → Req → List Ev

/-- ErrorHandler: the error router's Handle method (the ErrorHandlerFunc
adapter in the source turns a bare function into this capability); its side
effects are recorded as ghost events. -/
def ErrorHandler := Ctx → GoError → List Ev

/-- Server (src/v2/server.go:122-131): the constructed-once pipeline
configuration. -/
structure Server (I O : Type) where
  h : HandlerFunc I O
  dec : DecodeRequestFunc I
  enc : EncodeReponseFunc O
  before : List RequestFunc
  after : List ServerResponseFunc
  errorEncoder : ErrorEncoder
  finalizer : List ServerFinalizerFunc
  errorHandler : ErrorHandler

/-- The nested loop over a Headerer capability result: for each key, each
value is added in order (src/v2/server.go:63-69 and 103-109). -/
def addVals {α : Type} (key : String) : List String → WProg α → WProg α
  | [], k => k
  | v :: vs, k => .addHeader key v (addVals key vs k)

def addCapHeaders {α : Type} : List (String × List String) → WProg α → WProg α
  | [], k => k
  | (key, vals) :: rest, k => addVals key vals (addCapHeaders rest k)

/-- DefaultErrorEncoder (src/v2/server.go:55-76): the body and content type
start as the text/plain rendering of Error() and are replaced by the
json.Marshaler result when that capability exists and succeeds; Content-Type
is set, the Headerer capability headers are added, and the resolved status
code (StatusCoder, else 500) and the body are written, once each. -/
def DefaultErrorEncoder : ErrorEncoder := fun _ err =>
  let ct : String :=
    match err.marshalJSON with
    | some (some _) => "application/json; charset=utf-8"
    | _ => "text/plain; charset=utf-8"
  let body : Bytes :=
    match err.marshalJSON with
    | some (some jsonBody) => jsonBody
    | _ => strBytes err.msg
  let code : Nat :=
    match err.statusCode with
    | some c => c
    | none => 500
  WProg.setHeader "Content-Type" ct
    (addCapHeaders (match err.headersCap with | some hs => hs | none => [])
      (WProg.writeHeader code (WProg.write body (fun _ => WProg.pure ()))))

instance {ε α : Type} [DecidableEq ε] [DecidableEq α] : DecidableEq (Except ε α) := fun
  | .error a, .error b =>
      if h : a = b then .isTrue (by rw [h])
      else .isFalse (by intro hh; cases hh; exact h rfl)
  | .error _, .ok _ => .isFalse (by intro h; cases h)
  | .ok _, .error _ => .isFalse (by intro h; cases h)
  | .ok a, .ok b =>
      if h : a = b then .isTrue (by rw [h])
      else .isFalse (by intro hh; cases hh; exact h rfl)

/-- A Go response value as EncodeJSONResponse sees it: the outcome of JSON
serialization of the value (ok b when serialization yields b, error e when
it fails with e), plus its optional StatusCoder and Headerer capabilities. -/
structure GoValue where
  jsonEnc : Except GoError Bytes
  statusCode : Option Nat
  headersCap : Option (List (String × List String))
deriving DecidableEq

/-- EncodeJSONResponse (src/v2/server.go:97-119), instantiated at the
GoValue response type: Content-Type is set, Headerer capability headers are
added, the resolved status code (StatusCoder, else 200) is written, and then
the body is serialized unless the code is 204. The stream encoder used by
the source writes the JSON serialization followed by a newline byte (10) and
returns the write error, or the serialization error when marshaling fails. -/
def EncodeJSONResponse : EncodeReponseFunc GoValue := fun _ v =>
  WProg.setHeader "Content-Type" "application/json; charset=utf-8"
    (addCapHeaders (match v.headersCap with | some hs => hs | none => [])
      (let code : Nat := match v.statusCode with | some c => c | none => 200
       WProg.writeHeader code
         (if code = 204 then WProg.pure none
          else
            match v.jsonEnc with
            | .error e => WProg.pure (some e)
            | .ok b => WProg.write (b ++ [10]) (fun res => WProg.pure res.2))))

/-- ReponseCode (src/v2/server.go:262-265): pairs an arbitrary response
value with an explicit status code. -/
structure ReponseCode where
  resp : GoValue
  code : Nat
deriving DecidableEq

/-- The JSON serialization of a value, as the standard marshaler produces
it for that value. -/
def jsonMarshal (v : GoValue) : Except GoError Bytes := v.jsonEnc

/-- StatusCode (src/v2/server.go:268-270): returns the given status code. -/
def ReponseCode.StatusCode (r : ReponseCode) : Nat := r.code

/-- MarshalJSON (src/v2/server.go:273-275): delegates serialization to the
wrapped response value. -/
def ReponseCode.MarshalJSON (r : ReponseCode) : Except GoError Bytes := jsonMarshal r.resp

/-- The GoValue view of a ReponseCode: it implements StatusCoder and
json.Marshaler (so its serialization is its MarshalJSON result) and does not
implement Headerer. -/
def ReponseCode.toGoValue (r : ReponseCode) : GoValue :=
  { jsonEnc := r.MarshalJSON, statusCode := some r.StatusCode, headersCap := none }

/-- AddStatusCode (src/v2/server.go:278-283). -/
def AddStatusCode (resp : GoValue) (code : Nat) : ReponseCode := ⟨resp, code⟩

/-- Modelled from the spec: LogErrorHandler, the default error router that
NewServer installs via the ErrorHandlerFunc adapter, is code of this
repository that is not among the provided sources. The spec's Error Routing
section fixes the default behaviour: a no-op that silently absorbs errors
while rendering still happens through the error encoder; it is therefore
modelled as a handler that produces no observable effect. -/
def LogErrorHandler : ErrorHandler := fun _ _ => []

/-- ServerOption (src/v2/server.go:194): mutates the server under
construction. -/
def ServerOption (I O : Type) := Server I O → Server I O

/-- ServerBefore (src/v2/server.go:198-202). -/
def ServerBefore {I O : Type} (fs : List RequestFunc) : ServerOption I O :=
  fun s => { s with before := s.before ++ fs }

/-- ServerAfter (src/v2/server.go:206-210). -/
def ServerAfter {I O : Type} (fs : List ServerResponseFunc) : ServerOption I O :=
  fun s => { s with after := s.after ++ fs }

/-- ServerFinalizer (src/v2/server.go:144-146). -/
def ServerFinalizer {I O : Type} (fs : List ServerFinalizerFunc) : ServerOption I O :=
  fun s => { s with finalizer := s.finalizer ++ fs }

/-- ServerErrorHandler (src/v2/server.go:138-140). -/
def ServerErrorHandler {I O : Type} (eh : ErrorHandler) : ServerOption I O :=
  fun s => { s with errorHandler := eh }

/-- NewServer (src/v2/server.go:218-237): the base configuration installs
DefaultErrorEncoder and the LogErrorHandler error router, then the options
are applied in order. -/
def NewServer {I O : Type} (h : HandlerFunc I O) (dec : DecodeRequestFunc I)
    (enc : EncodeReponseFunc O) (options : List (ServerOption I O)) : Server I O :=
  options.foldl (fun s o => o s)
    { h := h, dec := dec, enc := enc, before := [], after := [],
      errorEncoder := DefaultErrorEncoder, finalizer := [],
      errorHandler := LogErrorHandler }

/-- The pre-hook loop of ServeHTTP (src/v2/server.go:164-166). -/
def runBefore : List RequestFunc → Ctx → Req → Ctx × List Ev
  | [], ctx, _ => (ctx, [])
  | f :: fs, ctx, r =>
      let x := f ctx r
      let y := runBefore fs x.1 r
      (y.1, x.2 ++ y.2)

/-- The post-hook loop of ServeHTTP (src/v2/server.go:182-184). -/
def runAfter : List ServerResponseFunc → Ctx → RW → Ctx × RW × List Ev
  | [], ctx, w => (ctx, w, [])
  | f :: fs, ctx, w =>
      let x := runW (f ctx) w
      let y := runAfter fs x.1 x.2.1
      (y.1, y.2.1, x.2.2 ++ y.2.2)

/-- The finalizer loop of the deferred block (src/v2/server.go:157-159):
every finalizer receives the same context and code. -/
def runFinalizers : List ServerFinalizerFunc → Ctx → Nat → Req → List Ev
  | [], _, _, _ => []
  | f :: fs, ctx, code, r => f ctx code r ++ runFinalizers fs ctx code r

/-- The body of ServeHTTP (src/v2/server.go:164-191): pre-hooks, decode,
handle, post-hooks, encode, with the error router and error encoder invoked
on the failing stage's error and every later stage skipped. It returns the
context variable's value at function exit (as the deferred block observes
it), the final writer, and the ghost effects in program order. -/
def serveCore {I O : Type} (s : Server I O) (ctx0 : Ctx) (w0 : RW) (r : Req) :
    Ctx × RW × List Ev :=
  let b := runBefore s.before ctx0 r
  let d := s.dec b.1 r
  match d.1 with
  | .error err =>
      let evEH := s.errorHandler b.1 err
      let e := runW (s.errorEncoder b.1 err) w0
      (b.1, e.2.1, b.2 ++ d.2 ++ evEH ++ e.2.2)
  | .ok req =>
      let h := s.h b.1 req
      match h.1 with
      | .error err =>
          let evEH := s.errorHandler b.1 err
          let e := runW (s.errorEncoder b.1 err) w0
          (b.1, e.2.1, b.2 ++ d.2 ++ h.2 ++ evEH ++ e.2.2)
      | .ok resp =>
          let a := runAfter s.after b.1 w0
          let enc := runW (s.enc a.1 resp) a.2.1
          match enc.1 with
          | some err =>
              let evEH := s.errorHandler a.1 err
              let e := runW (s.errorEncoder a.1 err) enc.2.1
              (a.1, e.2.1, b.2 ++ d.2 ++ h.2 ++ a.2.2 ++ enc.2.2 ++ evEH ++ e.2.2)
          | none => (a.1, enc.2.1, b.2 ++ d.2 ++ h.2 ++ a.2.2 ++ enc.2.2)

/-- The interceptingWriter construction of ServeHTTP (src/v2/server.go:153):
initial recorded code 200, initial byte count 0. -/
def interceptingWriter (w : RW) : RW := .icept w 200 0

/-- ServeHTTP (src/v2/server.go:149-191): when at least one finalizer is
configured the writer is wrapped in an interceptingWriter and, after the
body returns, the deferred block annotates the final context with the
observed header map and written byte count and runs every finalizer with the
recorded status code and the inbound request. -/
def serveHTTP {I O : Type} (s : Server I O) (w : RW) (r : Req) : RW × List Ev :=
  if 0 < s.finalizer.length then
    let c := serveCore s r.context (interceptingWriter w) r
    let ctx2 := withValue c.1 CtxKey.responseHeaders (CtxVal.header c.2.1.headerOf)
    let ctx3 := withValue ctx2 CtxKey.responseSize (CtxVal.size c.2.1.writtenOf)
    let evF := runFinalizers s.finalizer ctx3 c.2.1.codeOf r
    (c.2.1, c.2.2 ++ evF)
  else
    let c := serveCore s r.context w r
    (c.2.1, c.2.2)

/-- A concrete transport writer that accepts every byte and never fails,
starting with an empty header map and an empty event log. -/
def sinkBase : BaseWriter := ⟨fun _ p => (p.length, none), 0, ⟨[]⟩, []⟩

def sinkW : RW := .base sinkBase

lemma baseOf_setH (w : RW) (k v : String) :
    (w.setH k v).baseOf = { w.baseOf with header := w.baseOf.header.set k v } := by
  induction w with
  | base b => rfl
  | icept w c n ih => simpa [RW.setH, RW.baseOf] using ih

lemma baseOf_addH (w : RW) (k v : String) :
    (w.addH k v).baseOf = { w.baseOf with header := w.baseOf.header.add k v } := by
  induction w with
  | base b => rfl
  | icept w c n ih => simpa [RW.addH, RW.baseOf] using ih

lemma baseOf_wHeader (w : RW) (c : Nat) :
    (w.wHeader c).baseOf =
      { w.baseOf with events := w.baseOf.events ++ [WEvent.writeHeader c] } := by
  induction w with
  | base b => rfl
  | icept w cd n ih => simpa [RW.wHeader, RW.baseOf] using ih

lemma wWrite_fst (w : RW) (p : Bytes) :
    (w.wWrite p).1 = w.baseOf.accept w.baseOf.calls p := by
  induction w with
  | base b => rfl
  | icept w c n ih => simpa [RW.wWrite, RW.baseOf] using ih

lemma wWrite_baseOf (w : RW) (p : Bytes) :
    (w.wWrite p).2.baseOf =
      { w.baseOf with calls := w.baseOf.calls + 1,
                      events := w.baseOf.events ++
                        [WEvent.write p (w.baseOf.accept w.baseOf.calls p).1
                          (w.baseOf.accept w.baseOf.calls p).2] } := by
  induction w with
  | base b => rfl
  | icept w c n ih => simpa [RW.wWrite, RW.baseOf] using ih

/-- The header map produced by adding every value of one Headerer key. -/
def addValsHeader (h : Header) (key : String) (vs : List String) : Header :=
  vs.foldl (fun h v => h.add key v) h

/-- The header map produced by the nested Headerer loop. -/
def applyCapHeader (h : Header) : List (String × List String) → Header
  | [] => h
  | (key, vals) :: rest => applyCapHeader (addValsHeader h key vals) rest

/-- The writer after the nested Headerer loop of the source encoders. -/
def wAddVals (w : RW) (key : String) (vs : List String) : RW :=
  vs.foldl (fun w v => w.addH key v) w

def wApplyCap (w : RW) : List (String × List String) → RW
  | [] => w
  | (key, vals) :: rest => wApplyCap (wAddVals w key vals) rest

lemma runW_addVals {α : Type} (key : String) (vs : List String) (k : WProg α) (w : RW) :
    runW (addVals key vs k) w = runW k (wAddVals w key vs) := by
  induction vs generalizing w with
  | nil => rfl
  | cons v vs ih => simp [addVals, wAddVals, runW, ih, List.foldl_cons]

lemma runW_addCapHeaders {α : Type} (hs : List (String × List String)) (k : WProg α) (w : RW) :
    runW (addCapHeaders hs k) w = runW k (wApplyCap w hs) := by
  induction hs generalizing w with
  | nil => rfl
  | cons p rest ih => simp [addCapHeaders, wApplyCap, runW_addVals, ih]

lemma wAddVals_baseOf (w : RW) (key : String) (vs : List String) :
    (wAddVals w key vs).baseOf =
      { w.baseOf with header := addValsHeader w.baseOf.header key vs } := by
  induction vs generalizing w with
  | nil => rfl
  | cons v vs ih =>
      simp [wAddVals, addValsHeader, List.foldl_cons] at *
      rw [ih, baseOf_addH]

lemma wApplyCap_baseOf (w : RW) (hs : List (String × List String)) :
    (wApplyCap w hs).baseOf =
      { w.baseOf with header := applyCapHeader w.baseOf.header hs } := by
  induction hs generalizing w with
  | nil => rfl
  | cons p rest ih =>
      cases p with
      | mk key vals => rw [wApplyCap, applyCapHeader, ih, wAddVals_baseOf]

/-- The resolved error content type as the claim states it: the structured
form when the error provides custom serialization that succeeds, plain text
otherwise. -/
def specErrorContentType (err : GoError) : String :=
  match err.marshalJSON with
  | some (some _) => "application/json; charset=utf-8"
  | _ => "text/plain; charset=utf-8"

/-- The resolved error body as the claim states it: the successful custom
serialization, else the human-readable message. -/
def specErrorBody (err : GoError) : Bytes :=
  match err.marshalJSON with
  | some (some jsonBody) => jsonBody
  | _ => strBytes err.msg

/-- The resolved error status code as the claim states it: the one the error
provides, else 500. -/
def specErrorCode (err : GoError) : Nat :=
  match err.statusCode with
  | some c => c
  | none => 500

/-- The resolved success status code: the one the value provides, else 200. -/
def specRespCode (v : GoValue) : Nat :=
  match v.statusCode with
  | some c => c
  | none => 200

/-- The header list a Headerer capability contributes (empty when absent). -/
def capList (o : Option (List (String × List String))) : List (String × List String) :=
  match o with
  | some hs => hs
  | none => []

lemma runW_defaultErrorEncoder (ctx : Ctx) (err : GoError) (w : RW) :
    runW (DefaultErrorEncoder ctx err) w =
      (((), (((wApplyCap (w.setH "Content-Type" (specErrorContentType err))
          (capList err.headersCap)).wHeader (specErrorCode err)).wWrite
          (specErrorBody err)).2, [])) := by
  unfold DefaultErrorEncoder
  simp only [runW, runW_addCapHeaders]
  cases h : err.marshalJSON with
  | none => simp [specErrorContentType, specErrorBody, specErrorCode, capList, h, runW]
  | some o =>
      cases o with
      | none => simp [specErrorContentType, specErrorBody, specErrorCode, capList, h, runW]
      | some j => simp [specErrorContentType, specErrorBody, specErrorCode, capList, h, runW]

lemma defaultErrorEncoder_baseOf (ctx : Ctx) (err : GoError) (w : RW) :
    (runW (DefaultErrorEncoder ctx err) w).2.1.baseOf =
      { accept := w.baseOf.accept
        calls := w.baseOf.calls + 1
        header := applyCapHeader (w.baseOf.header.set "Content-Type" (specErrorContentType err))
          (capList err.headersCap)
        events := w.baseOf.events ++
          [WEvent.writeHeader (specErrorCode err),
           WEvent.write (specErrorBody err)
             (w.baseOf.accept w.baseOf.calls (specErrorBody err)).1
             (w.baseOf.accept w.baseOf.calls (specErrorBody err)).2] } := by
  rw [runW_defaultErrorEncoder]
  rw [wWrite_baseOf, baseOf_wHeader, wApplyCap_baseOf, baseOf_setH]
  simp [List.append_assoc]

lemma runW_encodeJSON_204 (ctx : Ctx) (v : GoValue) (w : RW) (h : specRespCode v = 204) :
    runW (EncodeJSONResponse ctx v) w =
      ((none : Option GoError),
       (wApplyCap (w.setH "Content-Type" "application/json; charset=utf-8")
          (capList v.headersCap)).wHeader 204, []) := by
  unfold EncodeJSONResponse
  simp only [runW, runW_addCapHeaders]
  unfold specRespCode at h
  rw [show (match v.statusCode with | some c => c | none => 200) = 204 from h]
  simp [runW, capList]

lemma runW_encodeJSON_body (ctx : Ctx) (v : GoValue) (w : RW) (b : Bytes)
    (hb : v.jsonEnc = .ok b) (h : specRespCode v ≠ 204) :
    runW (EncodeJSONResponse ctx v) w =
      (((((wApplyCap (w.setH "Content-Type" "application/json; charset=utf-8")
            (capList v.headersCap)).wHeader (specRespCode v)).wWrite (b ++ [10])).1.2),
       ((((wApplyCap (w.setH "Content-Type" "application/json; charset=utf-8")
            (capList v.headersCap)).wHeader (specRespCode v)).wWrite (b ++ [10])).2), []) := by
  unfold EncodeJSONResponse
  simp only [runW, runW_addCapHeaders]
  unfold specRespCode at h ⊢
  rw [if_neg h, hb]
  simp [runW, capList]

/-- C3. For every response value whose resolved status code is 204,
EncodeJSONResponse sets the Content-Type header, adds the value's Headerer
capability headers, writes status 204, writes no body bytes (the transport
writer sees no Write call and its write counter does not move) and returns
no error, even though the value's serialization would succeed; for any other
resolved status the serialized body (followed by the stream encoder's
newline byte) is written after the status. -/
theorem claim_C3 :
    (∀ (b : Bytes) (hc : Option (List (String × List String))) (ctx : Ctx) (w : RW),
       (runW (EncodeJSONResponse ctx ⟨.ok b, some 204, hc⟩) w).1 = none ∧
       (runW (EncodeJSONResponse ctx ⟨.ok b, some 204, hc⟩) w).2.1.eventsOf =
         w.eventsOf ++ [WEvent.writeHeader 204] ∧
       (runW (EncodeJSONResponse ctx ⟨.ok b, some 204, hc⟩) w).2.1.baseOf.calls =
         w.baseOf.calls ∧
       (runW (EncodeJSONResponse ctx ⟨.ok b, some 204, hc⟩) w).2.1.headerOf =
         applyCapHeader (w.headerOf.set "Content-Type" "application/json; charset=utf-8")
           (capList hc)) ∧
    (∀ (v : GoValue) (b : Bytes) (ctx : Ctx) (w : RW),
       v.jsonEnc = .ok b → specRespCode v ≠ 204 →
       (runW (EncodeJSONResponse ctx v) w).2.1.eventsOf =
         w.eventsOf ++ [WEvent.writeHeader (specRespCode v),
           WEvent.write (b ++ [10]) (w.baseOf.accept w.baseOf.calls (b ++ [10])).1
             (w.baseOf.accept w.baseOf.calls (b ++ [10])).2]) := by
  constructor
  · intro b hc ctx w
    have h204 : specRespCode (⟨.ok b, some 204, hc⟩ : GoValue) = 204 := rfl
    rw [runW_encodeJSON_204 ctx _ w h204]
    refine ⟨rfl, ?_, ?_, ?_⟩
    · simp [RW.eventsOf, baseOf_wHeader, wApplyCap_baseOf, baseOf_setH]
    · simp [baseOf_wHeader, wApplyCap_baseOf, baseOf_setH]
    · simp [RW.headerOf, baseOf_wHeader, wApplyCap_baseOf, baseOf_setH]
  · intro v b ctx w hb h
    rw [runW_encodeJSON_body ctx v w b hb h]
    simp [RW.eventsOf, wWrite_baseOf, baseOf_wHeader, wApplyCap_baseOf, baseOf_setH]

/-- Witness for C3 at a concrete input: a one-byte payload with declared
status 201 against the sink transport writer; the serialized body plus the
newline byte is written after the status. -/
theorem claim_C3_witness :
    ((⟨.ok [65], some 201, none⟩ : GoValue).jsonEnc = .ok [65]) ∧
    (specRespCode ⟨.ok [65], some 201, none⟩ ≠ 204) ∧
    (runW (EncodeJSONResponse [] ⟨.ok [65], some 201, none⟩) sinkW).2.1.eventsOf =
      [WEvent.writeHeader 201, WEvent.write [65, 10] 2 none] :=
  ⟨rfl, by decide, claim_C3.2 ⟨.ok [65], some 201, none⟩ [65] [] sinkW rfl (by decide)⟩

/-- C4. For every error value, DefaultErrorEncoder performs exactly one
status write and one body write, in that order: the body is the resolved
error body (the message bytes unless the custom serialization capability
succeeds, then its JSON form), the status is the one the error provides,
else 500, and the final header map is the incoming one with Content-Type
set to the resolved content type (structured form exactly when the custom
serialization succeeded) and the error's Headerer capability headers
added. -/
theorem claim_C4 (err : GoError) (ctx : Ctx) (w : RW) :
    (runW (DefaultErrorEncoder ctx err) w).2.1.eventsOf =
      w.eventsOf ++ [WEvent.writeHeader (specErrorCode err),
        WEvent.write (specErrorBody err)
          (w.baseOf.accept w.baseOf.calls (specErrorBody err)).1
          (w.baseOf.accept w.baseOf.calls (specErrorBody err)).2] ∧
    (runW (DefaultErrorEncoder ctx err) w).2.1.headerOf =
      applyCapHeader (w.headerOf.set "Content-Type" (specErrorContentType err))
        (capList err.headersCap) := by
  constructor
  · simp [RW.eventsOf, defaultErrorEncoder_baseOf]
  · simp [RW.headerOf, defaultErrorEncoder_baseOf]

/-- C9. For every error whose custom serialization capability exists but
fails, DefaultErrorEncoder falls back to the plain-text rendering: the body
written is the message bytes, Content-Type is set to text/plain, and the
header and status-code capabilities are still applied. -/
theorem claim_C9 (msg : String) (sc : Option Nat)
    (hc : Option (List (String × List String))) (ctx : Ctx) (w : RW) :
    (runW (DefaultErrorEncoder ctx ⟨msg, some none, sc, hc⟩) w).2.1.eventsOf =
      w.eventsOf ++ [WEvent.writeHeader (specErrorCode ⟨msg, some none, sc, hc⟩),
        WEvent.write (strBytes msg)
          (w.baseOf.accept w.baseOf.calls (strBytes msg)).1
          (w.baseOf.accept w.baseOf.calls (strBytes msg)).2] ∧
    specErrorContentType ⟨msg, some none, sc, hc⟩ = "text/plain; charset=utf-8" ∧
    specErrorCode ⟨msg, some none, sc, hc⟩ = (match sc with | some c => c | none => 500) ∧
    (runW (DefaultErrorEncoder ctx ⟨msg, some none, sc, hc⟩) w).2.1.headerOf =
      applyCapHeader (w.headerOf.set "Content-Type" "text/plain; charset=utf-8")
        (capList hc) := by
  refine ⟨?_, rfl, rfl, ?_⟩
  · have h := defaultErrorEncoder_baseOf ctx ⟨msg, some none, sc, hc⟩ w
    simp [RW.eventsOf, h, specErrorBody]
  · have h := defaultErrorEncoder_baseOf ctx ⟨msg, some none, sc, hc⟩ w
    simp [RW.headerOf, h, specErrorContentType]

/-- C5. The interceptingWriter is constructed with recorded code 200 and
byte count 0; WriteHeader sets the recorded code and delegates the same code
to the wrapped writer, leaving the byte count alone; Write delegates the
chunk unchanged to the wrapped writer, adds exactly the count of bytes the
wrapped writer accepted to the cumulative total, and returns the wrapped
writer's result (count and error) unchanged. -/
theorem claim_C5 :
    (∀ w : RW, (interceptingWriter w).codeOf = 200 ∧ (interceptingWriter w).writtenOf = 0) ∧
    (∀ (inner : RW) (c n c2 : Nat),
       (RW.icept inner c n).wHeader c2 = RW.icept (inner.wHeader c2) c2 n) ∧
    (∀ (inner : RW) (c n : Nat) (p : Bytes),
       ((RW.icept inner c n).wWrite p).1 = (inner.wWrite p).1 ∧
       ((RW.icept inner c n).wWrite p).2 =
         RW.icept (inner.wWrite p).2 c (n + (inner.wWrite p).1.1)) :=
  ⟨fun _ => ⟨rfl, rfl⟩, fun _ _ _ _ => rfl, fun _ _ _ _ => ⟨rfl, rfl⟩⟩

/-- The UTF-8 bytes of the spec scenario payload, a JSON object binding the
field named id to 1. -/
def idPayload : Bytes := [123, 34, 105, 100, 34, 58, 49, 125]

/-- Counterexample to C6 as stated: at the concrete payload of the spec's
scenario, encoding AddStatusCode of it with status 201 writes status 201,
but the body bytes written are the JSON serialization followed by the stream
encoder's newline byte (10), which differ from the JSON serialization
itself, so the body produced is not the JSON body of the value. -/
theorem claim_C6_counterexample :
    (AddStatusCode ⟨.ok idPayload, none, none⟩ 201).StatusCode = 201 ∧
    (AddStatusCode ⟨.ok idPayload, none, none⟩ 201).MarshalJSON =
      jsonMarshal ⟨.ok idPayload, none, none⟩ ∧
    (runW (EncodeJSONResponse []
        (AddStatusCode ⟨.ok idPayload, none, none⟩ 201).toGoValue) sinkW).2.1.eventsOf =
      [WEvent.writeHeader 201, WEvent.write (idPayload ++ [10]) 9 none] ∧
    idPayload ++ [10] ≠ idPayload :=
  ⟨rfl, rfl, rfl, by decide⟩

/-- C6 as amended: AddStatusCode satisfies the custom-status capability with
the explicit code and the custom-serialization capability by delegating to
the wrapped value's JSON serialization; consequently, encoding a wrapper
with status 201 around a value whose serialization succeeds writes status
201 and then a body equal to the JSON serialization of the value followed by
the single newline byte the stream encoder appends. -/
theorem claim_C6 :
    (∀ (v : GoValue) (c : Nat),
       (AddStatusCode v c).StatusCode = c ∧
       (AddStatusCode v c).MarshalJSON = jsonMarshal v) ∧
    (∀ (b : Bytes) (ctx : Ctx) (w : RW),
       (runW (EncodeJSONResponse ctx
           (AddStatusCode ⟨.ok b, none, none⟩ 201).toGoValue) w).2.1.eventsOf =
         w.eventsOf ++ [WEvent.writeHeader 201,
           WEvent.write (b ++ [10]) (w.baseOf.accept w.baseOf.calls (b ++ [10])).1
             (w.baseOf.accept w.baseOf.calls (b ++ [10])).2] ∧
       (runW (EncodeJSONResponse ctx
           (AddStatusCode ⟨.ok b, none, none⟩ 201).toGoValue) w).2.1.headerOf =
         w.headerOf.set "Content-Type" "application/json; charset=utf-8") := by
  refine ⟨fun v c => ⟨rfl, rfl⟩, fun b ctx w => ?_⟩
  have hb : (AddStatusCode ⟨.ok b, none, none⟩ 201).toGoValue.jsonEnc = .ok b := rfl
  have hc : specRespCode (AddStatusCode ⟨.ok b, none, none⟩ 201).toGoValue = 201 := rfl
  have hne : specRespCode (AddStatusCode ⟨.ok b, none, none⟩ 201).toGoValue ≠ 204 := by
    rw [hc]; decide
  rw [runW_encodeJSON_body ctx _ w b hb hne]
  rw [hc]
  constructor
  · simp [RW.eventsOf, wWrite_baseOf, baseOf_wHeader, wApplyCap_baseOf, baseOf_setH,
      AddStatusCode, ReponseCode.toGoValue, capList, wApplyCap]
  · simp [RW.headerOf, wWrite_baseOf, baseOf_wHeader, wApplyCap_baseOf, baseOf_setH,
      AddStatusCode, ReponseCode.toGoValue, capList, wApplyCap]

/-- A pre-hook that emits a beacon and keeps the context. -/
def preTag (i : Nat) : RequestFunc := fun ctx _ => (ctx, [Ev.preHook i])

/-- A post-hook that emits a beacon and keeps the context and writer. -/
def postTag (i : Nat) : ServerResponseFunc := fun ctx => .emit (.postHook i) (.pure ctx)

/-- A finalizer that emits a beacon and ignores its arguments. -/
def finTag (i : Nat) : ServerFinalizerFunc := fun _ _ _ => [Ev.finalTag i]

/-- A finalizer that records the status code and context it was invoked
with. -/
def recFinal (i : Nat) : ServerFinalizerFunc := fun ctx code _ => [Ev.finalized i code ctx]

/-- A fully instrumented pipeline: every stage emits a beacon when invoked,
and the outcome of each of decode, handle and encode is a parameter, so one
configuration per possible failure pattern. -/
def probeServer (decRes hRes : Except GoError Nat) (encErr : Option GoError)
    (nb na nf : Nat) : Server Nat Nat where
  h := fun _ _ => (hRes, [Ev.handleEv])
  dec := fun _ _ => (decRes, [Ev.decodeEv])
  enc := fun _ _ => .emit Ev.encodeEv (.pure encErr)
  before := (List.range nb).map preTag
  after := (List.range na).map postTag
  errorEncoder := fun _ _ => .emit Ev.errEncodeEv (.pure ())
  errorHandler := fun _ e => [Ev.handled e]
  finalizer := (List.range nf).map finTag

/-- The stage trace the claim prescribes: pre-hooks, then decode, then (when
decode succeeded) handle, then (when handle succeeded) post-hooks and
encode; the first failure routes the error and renders it exactly once and
nothing later runs except the finalizers, which always come last. -/
def specStageTrace (decRes hRes : Except GoError Nat) (encErr : Option GoError)
    (nb na nf : Nat) : List Ev :=
  ((List.range nb).map Ev.preHook) ++ [Ev.decodeEv] ++
  (match decRes with
   | .error e => [Ev.handled e, Ev.errEncodeEv]
   | .ok _ =>
     [Ev.handleEv] ++
     (match hRes with
      | .error e => [Ev.handled e, Ev.errEncodeEv]
      | .ok _ =>
        ((List.range na).map Ev.postHook) ++ [Ev.encodeEv] ++
        (match encErr with
         | some e => [Ev.handled e, Ev.errEncodeEv]
         | none => []))) ++
  ((List.range nf).map Ev.finalTag)

lemma runBefore_preTags (l : List Nat) (ctx : Ctx) (r : Req) :
    runBefore (l.map preTag) ctx r = (ctx, l.map Ev.preHook) := by
  induction l generalizing ctx with
  | nil => rfl
  | cons i l ih => simp [runBefore, preTag, ih]

lemma runAfter_postTags (l : List Nat) (ctx : Ctx) (w : RW) :
    runAfter (l.map postTag) ctx w = (ctx, w, l.map Ev.postHook) := by
  induction l generalizing ctx w with
  | nil => rfl
  | cons i l ih => simp [runAfter, postTag, runW, ih]

lemma runFinalizers_finTags (l : List Nat) (ctx : Ctx) (code : Nat) (r : Req) :
    runFinalizers (l.map finTag) ctx code r = l.map Ev.finalTag := by
  induction l with
  | nil => rfl
  | cons i l ih => simp [runFinalizers, finTag, ih]

lemma runFinalizers_recFinal (l : List Nat) (ctx : Ctx) (code : Nat) (r : Req) :
    runFinalizers (l.map recFinal) ctx code r =
      l.map (fun i => Ev.finalized i code ctx) := by
  induction l with
  | nil => rfl
  | cons i l ih => simp [runFinalizers, recFinal, ih]

lemma serveCore_probe (decRes hRes : Except GoError Nat) (encErr : Option GoError)
    (nb na nf : Nat) (ctx : Ctx) (w : RW) (r : Req) :
    (serveCore (probeServer decRes hRes encErr nb na nf) ctx w r).2.2 =
      ((List.range nb).map Ev.preHook) ++ [Ev.decodeEv] ++
      (match decRes with
       | .error e => [Ev.handled e, Ev.errEncodeEv]
       | .ok _ =>
         [Ev.handleEv] ++
         (match hRes with
          | .error e => [Ev.handled e, Ev.errEncodeEv]
          | .ok _ =>
            ((List.range na).map Ev.postHook) ++ [Ev.encodeEv] ++
            (match encErr with
             | some e => [Ev.handled e, Ev.errEncodeEv]
             | none => []))) := by
  cases decRes with
  | error e =>
      simp [serveCore, probeServer, runBefore_preTags, runW]
  | ok req =>
      cases hRes with
      | error e =>
          simp [serveCore, probeServer, runBefore_preTags, runW]
      | ok resp =>
          cases encErr with
          | some e =>
              simp [serveCore, probeServer, runBefore_preTags, runAfter_postTags, runW]
          | none =>
              simp [serveCore, probeServer, runBefore_preTags, runAfter_postTags, runW]

/-- C1. On the instrumented pipeline, the ghost trace of ServeHTTP is
exactly the claim's stage sequence, for every combination of decode, handle
and encode outcomes and every number of hooks and finalizers: pre-hooks
precede decode, decode precedes handle, post-hooks and encode run only when
decode and handle both succeeded, a decode or handle failure routes and
renders the error exactly once and skips every later stage except
finalization, an encode failure renders exactly once after encode, and a
failure-free call emits encode exactly once and never the error encoder. -/
theorem claim_C1 (decRes hRes : Except GoError Nat) (encErr : Option GoError)
    (nb na nf : Nat) (w : RW) (r : Req) :
    (serveHTTP (probeServer decRes hRes encErr nb na nf) w r).2 =
      specStageTrace decRes hRes encErr nb na nf := by
  cases nf with
  | zero =>
      have h0 : (probeServer decRes hRes encErr nb na 0).finalizer = [] := rfl
      rw [serveHTTP, h0]
      simp only [List.length_nil, lt_irrefl, if_false]
      rw [serveCore_probe]
      simp [specStageTrace]
  | succ k =>
      have hlen : 0 < (probeServer decRes hRes encErr nb na (k+1)).finalizer.length := by
        simp [probeServer]
      rw [serveHTTP, if_pos hlen]
      show (serveCore (probeServer decRes hRes encErr nb na (k+1)) r.context
          (interceptingWriter w) r).2.2 ++ _ = _
      rw [serveCore_probe]
      show _ ++ runFinalizers ((List.range (k+1)).map finTag) _ _ _ = _
      rw [runFinalizers_finTags]
      simp [specStageTrace]

/-- C2. For every pipeline configuration and every positive number of
configured (recording) finalizers, ServeHTTP wraps the writer in an
interceptingWriter, runs the call body on it, and afterwards runs each
finalizer exactly once, in order, passing every one of them the status code
the interceptingWriter recorded and a context that annotates the body's
final context with the observed response header map and the observed written
byte count, regardless of which stage of the body failed. -/
theorem claim_C2 {I O : Type} (s0 : Server I O) (k : Nat) (w : RW) (r : Req) :
    let s : Server I O := { s0 with finalizer := (List.range (k+1)).map recFinal }
    let c := serveCore s r.context (interceptingWriter w) r
    let ctxF := withValue
        (withValue c.1 CtxKey.responseHeaders (CtxVal.header c.2.1.headerOf))
        CtxKey.responseSize (CtxVal.size c.2.1.writtenOf)
    serveHTTP s w r =
      (c.2.1, c.2.2 ++ (List.range (k+1)).map (fun i => Ev.finalized i c.2.1.codeOf ctxF)) ∧
    ctxValue ctxF CtxKey.responseSize = some (CtxVal.size c.2.1.writtenOf) ∧
    ctxValue ctxF CtxKey.responseHeaders = some (CtxVal.header c.2.1.headerOf) := by
  intro s c ctxF
  have hlen : 0 < s.finalizer.length := by simp [s]
  refine ⟨?_, rfl, rfl⟩
  rw [serveHTTP, if_pos hlen]
  show (c.2.1, c.2.2 ++ runFinalizers s.finalizer ctxF c.2.1.codeOf r) = _
  rw [show s.finalizer = (List.range (k+1)).map recFinal from rfl, runFinalizers_recFinal]

/-- The status and body events DefaultErrorEncoder appends to a transport
writer in state b when rendering err. -/
def specRenderTail (err : GoError) (b : BaseWriter) : List WEvent :=
  [WEvent.writeHeader (specErrorCode err),
   WEvent.write (specErrorBody err)
     (b.accept b.calls (specErrorBody err)).1
     (b.accept b.calls (specErrorBody err)).2]

lemma runW_pure {α : Type} (a : α) (w : RW) : runW (WProg.pure a) w = (a, w, []) := rfl

lemma dee_effects (ctx : Ctx) (err : GoError) (w : RW) :
    (runW (DefaultErrorEncoder ctx err) w).2.2 = [] := by
  rw [runW_defaultErrorEncoder]

lemma dee_events (ctx : Ctx) (err : GoError) (w : RW) :
    (runW (DefaultErrorEncoder ctx err) w).2.1.eventsOf =
      w.eventsOf ++ specRenderTail err w.baseOf := by
  simp [RW.eventsOf, defaultErrorEncoder_baseOf, specRenderTail]

/-- A pipeline built by NewServer with no options at all, whose stages are
effect-free and whose decode, handle and encode outcomes are parameters. -/
def plainServer (decRes hRes : Except GoError Nat) (encErr : Option GoError) : Server Nat Nat :=
  NewServer (fun _ _ => (hRes, [])) (fun _ _ => (decRes, [])) (fun _ _ => WProg.pure encErr) []

/-- C7. A pipeline constructed by NewServer without an error-router option
carries the default LogErrorHandler router, which produces no observable
effect on any error; on every failing stage of such a pipeline the ghost
trace of ServeHTTP stays empty (the error is absorbed silently) while the
writer still receives the error encoder's rendering — the resolved status
write and body write of DefaultErrorEncoder, which NewServer installed. -/
theorem claim_C7 :
    (∀ (decRes hRes : Except GoError Nat) (encErr : Option GoError),
       (plainServer decRes hRes encErr).errorHandler = LogErrorHandler ∧
       (plainServer decRes hRes encErr).errorEncoder = DefaultErrorEncoder) ∧
    (∀ (ctx : Ctx) (e : GoError), LogErrorHandler ctx e = []) ∧
    (∀ (decRes hRes : Except GoError Nat) (encErr : Option GoError) (w : RW) (r : Req),
       (serveHTTP (plainServer decRes hRes encErr) w r).2 = [] ∧
       (serveHTTP (plainServer decRes hRes encErr) w r).1.eventsOf =
         w.eventsOf ++
         (match decRes with
          | .error e => specRenderTail e w.baseOf
          | .ok _ =>
            match hRes with
            | .error e => specRenderTail e w.baseOf
            | .ok _ =>
              match encErr with
              | some e => specRenderTail e w.baseOf
              | none => [])) := by
  refine ⟨fun _ _ _ => ⟨rfl, rfl⟩, fun _ _ => rfl, fun decRes hRes encErr w r => ?_⟩
  have hfin : (plainServer decRes hRes encErr).finalizer = [] := rfl
  rw [serveHTTP, hfin]
  simp only [List.length_nil, lt_irrefl, if_false]
  cases decRes with
  | error e =>
      constructor
      · simp [serveCore, plainServer, NewServer, runBefore, LogErrorHandler,
          runW_defaultErrorEncoder]
      · simp [serveCore, plainServer, NewServer, runBefore, defaultErrorEncoder_baseOf,
          RW.eventsOf, specRenderTail]
  | ok req =>
      cases hRes with
      | error e =>
          constructor
          · simp [serveCore, plainServer, NewServer, runBefore, LogErrorHandler,
              runW_defaultErrorEncoder]
          · simp [serveCore, plainServer, NewServer, runBefore, defaultErrorEncoder_baseOf,
              RW.eventsOf, specRenderTail]
      | ok resp =>
          cases encErr with
          | some e =>
              constructor
              · simp [serveCore, plainServer, NewServer, runBefore, runAfter, runW_pure,
                  LogErrorHandler, dee_effects]
              · simp [serveCore, plainServer, NewServer, runBefore, runAfter, runW_pure,
                  dee_events]
          | none =>
              constructor
              · simp [serveCore, plainServer, NewServer, runBefore, runAfter, runW]
              · simp [serveCore, plainServer, NewServer, runBefore, runAfter, runW]

/-- Sequential composition of writer programs: perform p, then q. -/
def seqThen {α : Type} : WProg Unit → WProg α → WProg α
  | .pure _, q => q
  | .emit e k, q => .emit e (seqThen k q)
  | .setHeader a b k, q => .setHeader a b (seqThen k q)
  | .addHeader a b k, q => .addHeader a b (seqThen k q)
  | .getHeader k, q => .getHeader (fun h => seqThen (k h) q)
  | .writeHeader c k, q => .writeHeader c (seqThen k q)
  | .write p k, q => .write p (fun r => seqThen (k r) q)

lemma runW_seqThen {α : Type} (p : WProg Unit) (q : WProg α) (w : RW) :
    runW (seqThen p q) w =
      ((runW q (runW p w).2.1).1, (runW q (runW p w).2.1).2.1,
       (runW p w).2.2 ++ (runW q (runW p w).2.1).2.2) := by
  induction p generalizing w with
  | pure a => simp [seqThen, runW]
  | emit e k ih => simp [seqThen, runW, ih]
  | setHeader a b k ih => simp [seqThen, runW, ih]
  | addHeader a b k ih => simp [seqThen, runW, ih]
  | getHeader k ih => simp [seqThen, runW, ih]
  | writeHeader c k ih => simp [seqThen, runW, ih]
  | write pp k ih => simp [seqThen, runW, ih]

lemma runW_events_mono {α : Type} (p : WProg α) (w : RW) :
    ∃ t, (runW p w).2.1.eventsOf = w.eventsOf ++ t := by
  induction p generalizing w with
  | pure a => exact ⟨[], by simp [runW]⟩
  | emit e k ih =>
      obtain ⟨t, ht⟩ := ih w
      exact ⟨t, by simp [runW, ht]⟩
  | setHeader a b k ih =>
      obtain ⟨t, ht⟩ := ih (w.setH a b)
      exact ⟨t, by simpa [runW, RW.eventsOf, baseOf_setH] using ht⟩
  | addHeader a b k ih =>
      obtain ⟨t, ht⟩ := ih (w.addH a b)
      exact ⟨t, by simpa [runW, RW.eventsOf, baseOf_addH] using ht⟩
  | getHeader k ih =>
      obtain ⟨t, ht⟩ := ih w.headerOf w
      exact ⟨t, by simpa [runW] using ht⟩
  | writeHeader c k ih =>
      obtain ⟨t, ht⟩ := ih (w.wHeader c)
      refine ⟨WEvent.writeHeader c :: t, ?_⟩
      simp [runW, RW.eventsOf, baseOf_wHeader] at ht
      simp [runW, RW.eventsOf, ht]
  | write pp k ih =>
      obtain ⟨t, ht⟩ := ih (w.wWrite pp).1 (w.wWrite pp).2
      refine ⟨WEvent.write pp (w.baseOf.accept w.baseOf.calls pp).1
        (w.baseOf.accept w.baseOf.calls pp).2 :: t, ?_⟩
      simp [RW.eventsOf, wWrite_baseOf] at ht
      simp [runW, RW.eventsOf, ht]

lemma serveCore_encFail {I O : Type} (hf : HandlerFunc I O) (dec : DecodeRequestFunc I)
    (enc : EncodeReponseFunc O) (bf : List RequestFunc) (af : List ServerResponseFunc)
    (E : ErrorEncoder) (fin : List ServerFinalizerFunc) (eh : ErrorHandler)
    (ctx0 : Ctx) (w0 : RW) (r : Req) (req0 : I) (resp0 : O) (evD evH : List Ev)
    (err : GoError)
    (hdec : dec (runBefore bf ctx0 r).1 r = (.ok req0, evD))
    (hh : hf (runBefore bf ctx0 r).1 req0 = (.ok resp0, evH))
    (henc : (runW (enc (runAfter af (runBefore bf ctx0 r).1 w0).1 resp0)
        (runAfter af (runBefore bf ctx0 r).1 w0).2.1).1 = some err) :
    serveCore ⟨hf, dec, enc, bf, af, E, fin, eh⟩ ctx0 w0 r =
      ((runAfter af (runBefore bf ctx0 r).1 w0).1,
       (runW (E (runAfter af (runBefore bf ctx0 r).1 w0).1 err)
         (runW (enc (runAfter af (runBefore bf ctx0 r).1 w0).1 resp0)
           (runAfter af (runBefore bf ctx0 r).1 w0).2.1).2.1).2.1,
       (runBefore bf ctx0 r).2 ++ evD ++ evH ++
       (runAfter af (runBefore bf ctx0 r).1 w0).2.2 ++
       (runW (enc (runAfter af (runBefore bf ctx0 r).1 w0).1 resp0)
         (runAfter af (runBefore bf ctx0 r).1 w0).2.1).2.2 ++
       eh (runAfter af (runBefore bf ctx0 r).1 w0).1 err ++
       (runW (E (runAfter af (runBefore bf ctx0 r).1 w0).1 err)
         (runW (enc (runAfter af (runBefore bf ctx0 r).1 w0).1 resp0)
           (runAfter af (runBefore bf ctx0 r).1 w0).2.1).2.1).2.2) := by
  simp only [serveCore, hdec, hh, henc]

/-- C8. For every call whose encoder fails — the encoder being an arbitrary
writer program, so in particular one that has already written status or body
bytes — ServeHTTP runs the error encoder afterwards on exactly the writer
state the failed encoder left behind, and the transport event log only ever
grows: everything the encoder wrote is still there when the error encoder
runs, and still there at the end. -/
theorem claim_C8 {I O : Type} (req0 : I) (resp0 : O) (evD evH : List Ev)
    (bf : List RequestFunc) (af : List ServerResponseFunc)
    (p : WProg (Option GoError)) (err : GoError) (E : ErrorEncoder) (eh : ErrorHandler)
    (w : RW) (r : Req) :
    let s : Server I O :=
      { h := fun _ _ => (.ok resp0, evH), dec := fun _ _ => (.ok req0, evD),
        enc := fun _ _ => p,
        before := bf, after := af, errorEncoder := E, finalizer := [],
        errorHandler := eh }
    let b := runBefore bf r.context r
    let a := runAfter af b.1 w
    let encR := runW p a.2.1
    let rendR := runW (E a.1 err) encR.2.1
    encR.1 = some err →
    serveHTTP s w r =
      (rendR.2.1,
       b.2 ++ evD ++ evH ++ a.2.2 ++ encR.2.2 ++ eh a.1 err ++ rendR.2.2) ∧
    (∃ t, encR.2.1.eventsOf = a.2.1.eventsOf ++ t) ∧
    (∃ t, rendR.2.1.eventsOf = encR.2.1.eventsOf ++ t) := by
  intro s b a encR rendR hfail
  refine ⟨?_, runW_events_mono _ _, runW_events_mono _ _⟩
  have hcore : serveCore s r.context w r =
      (a.1, rendR.2.1,
       b.2 ++ evD ++ evH ++ a.2.2 ++ encR.2.2 ++ eh a.1 err ++ rendR.2.2) :=
    serveCore_encFail (fun _ _ => (.ok resp0, evH)) (fun _ _ => (.ok req0, evD))
      (fun _ _ => p) bf af E [] eh r.context w r req0 resp0 evD evH err rfl rfl hfail
  have hserve : serveHTTP s w r =
      ((serveCore s r.context w r).2.1, (serveCore s r.context w r).2.2) := by
    rw [serveHTTP]
    have hfin : s.finalizer = [] := rfl
    rw [hfin]
    simp only [List.length_nil, lt_irrefl, if_false]
  rw [hserve, hcore]

/-- A plain error value with no optional capabilities. -/
def boomErr : GoError := ⟨"boom", none, none, none⟩

/-- Witness for C8 at a concrete input: an encoder that writes three body
bytes and then fails; the error encoder's rendering lands on the same
writer after those bytes, which are still present in the final event log. -/
theorem claim_C8_witness :
    (runW (WProg.write [1, 2, 3] (fun _ => WProg.pure (some boomErr)))
        (runAfter [] (runBefore [] ([] : Ctx) ⟨[], 0⟩).1 sinkW).2.1).1 = some boomErr ∧
    (serveHTTP ({ h := fun _ _ => (.ok 0, []), dec := fun _ _ => (.ok 0, []),
                  enc := fun _ _ => WProg.write [1, 2, 3] (fun _ => WProg.pure (some boomErr)),
                  before := [], after := [], errorEncoder := DefaultErrorEncoder,
                  finalizer := [], errorHandler := LogErrorHandler } : Server Nat Nat)
        sinkW ⟨[], 0⟩).1.eventsOf =
      [WEvent.write [1, 2, 3] 3 none, WEvent.writeHeader 500,
       WEvent.write (strBytes "boom") (strBytes "boom").length none] := by
  have h := claim_C8 (I := Nat) (O := Nat) 0 0 [] [] [] []
    (WProg.write [1, 2, 3] (fun _ => WProg.pure (some boomErr))) boomErr
    DefaultErrorEncoder LogErrorHandler sinkW ⟨[], 0⟩ rfl
  refine ⟨rfl, ?_⟩
  rw [(h.1 : _ = _)]
  rfl

/-- The loop of Chunk (src/unnamed/part_001:238-264) as a pure function of
the remaining stream: the bucket accumulates items and the counter counts
them; when the counter reaches the size, the bucket is passed to exec (one
list in the output) and both reset; after the stream ends a non-empty
bucket is passed to exec once more. The output lists the exec invocations
in order. -/
def chunkRun {α : Type} (size : Nat) : List α → List α → Nat → List (List α)
  | [], bucket, _ => if bucket.length ≠ 0 then [bucket] else []
  | item :: items, bucket, counter =>
      if counter + 1 = size then (bucket ++ [item]) :: chunkRun size items [] 0
      else chunkRun size items (bucket ++ [item]) (counter + 1)

/-- Chunk, started with an empty bucket and a zero counter. -/
def Chunk {α : Type} (size : Nat) (items : List α) : List (List α) :=
  chunkRun size items [] 0

lemma chunkRun_flatten {α : Type} (s : Nat) :
    ∀ (l b : List α), b.length < s → (chunkRun s l b b.length).flatten = b ++ l := by
  intro l
  induction l with
  | nil =>
      intro b _
      cases b with
      | nil => simp [chunkRun]
      | cons x xs => simp [chunkRun]
  | cons x xs ih =>
      intro b hb
      by_cases hflush : b.length + 1 = s
      · have h0 : ([] : List α).length < s := by simp; omega
        have hrec := ih [] h0
        rw [List.length_nil] at hrec
        simp only [chunkRun, if_pos hflush, List.flatten_cons]
        rw [hrec]
        simp
      · have hlt : (b ++ [x]).length < s := by simp; omega
        have hrec := ih (b ++ [x]) hlt
        simp only [List.length_append, List.length_singleton] at hrec
        simp only [chunkRun, if_neg hflush]
        rw [hrec]
        simp

lemma chunkRun_length {α : Type} (s : Nat) (hs : 0 < s) :
    ∀ (l b : List α), b.length < s →
      (chunkRun s l b b.length).length = (b.length + l.length + (s - 1)) / s := by
  intro l
  induction l with
  | nil =>
      intro b hb
      cases b with
      | nil =>
          simp [chunkRun]
          rw [Nat.div_eq_of_lt (by omega)]
      | cons y ys =>
          simp only [chunkRun, List.length_cons, ne_eq]
          rw [if_pos (by simp)]
          simp only [List.length_singleton, List.length_nil, Nat.add_zero]
          have hbb : ys.length + 1 < s := by simpa using hb
          have h1 : (ys.length + 1 + (s - 1)) / s = 1 :=
            Nat.div_eq_of_lt_le (by omega) (by omega)
          rw [h1]
  | cons x xs ih =>
      intro b hb
      by_cases hflush : b.length + 1 = s
      · have h0 : ([] : List α).length < s := by simp; omega
        have hrec := ih [] h0
        rw [List.length_nil] at hrec
        simp only [chunkRun, if_pos hflush, List.length_cons]
        rw [hrec]
        have hsum : b.length + (xs.length + 1) + (s - 1) = 0 + xs.length + (s - 1) + s := by
          omega
        rw [hsum, Nat.add_div_right _ hs]
      · have hlt : (b ++ [x]).length < s := by simp; omega
        have hrec := ih (b ++ [x]) hlt
        simp only [List.length_append, List.length_singleton] at hrec
        simp only [chunkRun, if_neg hflush]
        rw [hrec]
        have hsum : b.length + 1 + xs.length + (s - 1) = b.length + (xs.length + 1) + (s - 1) := by
          omega
        rw [hsum]
        simp

lemma chunkRun_sizes {α : Type} (s : Nat) :
    ∀ (l b : List α), b.length < s →
      ∀ c ∈ chunkRun s l b b.length, 1 ≤ c.length ∧ c.length ≤ s := by
  intro l
  induction l with
  | nil =>
      intro b hb c hc
      cases b with
      | nil => simp [chunkRun] at hc
      | cons y ys =>
          simp only [chunkRun, ne_eq, List.length_cons] at hc
          rw [if_pos (by simp)] at hc
          rw [List.mem_singleton] at hc
          subst hc
          exact ⟨by simp, le_of_lt hb⟩
  | cons x xs ih =>
      intro b hb c hc
      by_cases hflush : b.length + 1 = s
      · have h0 : ([] : List α).length < s := by simp; omega
        simp only [chunkRun, if_pos hflush, List.mem_cons] at hc
        rcases hc with hc | hc
        · subst hc
          constructor
          · simp
          · simp; omega
        · have := ih [] h0
          rw [List.length_nil] at this
          exact this c hc
      · have hlt : (b ++ [x]).length < s := by simp; omega
        simp only [chunkRun, if_neg hflush] at hc
        have := ih (b ++ [x]) hlt
        simp only [List.length_append, List.length_singleton] at this
        exact this c hc

lemma chunkRun_dropLast {α : Type} (s : Nat) :
    ∀ (l b : List α), b.length < s →
      ∀ c ∈ (chunkRun s l b b.length).dropLast, c.length = s := by
  intro l
  induction l with
  | nil =>
      intro b hb c hc
      cases b with
      | nil => simp [chunkRun] at hc
      | cons y ys =>
          simp only [chunkRun, ne_eq, List.length_cons] at hc
          rw [if_pos (by simp)] at hc
          simp at hc
  | cons x xs ih =>
      intro b hb c hc
      by_cases hflush : b.length + 1 = s
      · have h0 : ([] : List α).length < s := by simp; omega
        simp only [chunkRun, if_pos hflush] at hc
        cases hrest : chunkRun s xs [] 0 with
        | nil => rw [hrest] at hc; simp at hc
        | cons y ys =>
            rw [hrest] at hc
            rw [List.dropLast_cons₂, List.mem_cons] at hc
            rcases hc with hc | hc
            · subst hc; simp; omega
            · have := ih [] h0
              rw [List.length_nil, hrest] at this
              exact this c hc
      · have hlt : (b ++ [x]).length < s := by simp; omega
        simp only [chunkRun, if_neg hflush] at hc
        have := ih (b ++ [x]) hlt
        simp only [List.length_append, List.length_singleton] at this
        exact this c hc

/-- C10. For every chunk size of at least one and every finite input
stream, Chunk invokes exec exactly the rounded-up quotient of the stream
length by the size many times; the chunks before the last all hold exactly
size items, every chunk holds between 1 and size items (so exec never
receives an empty slice and is never invoked at all on an empty stream),
and the concatenation of the chunks in invocation order is the input. -/
theorem claim_C10 {α : Type} (k : Nat) (l : List α) :
    (Chunk (k+1) l).length = (l.length + k) / (k+1) ∧
    (Chunk (k+1) l).flatten = l ∧
    (∀ c ∈ Chunk (k+1) l, 1 ≤ c.length ∧ c.length ≤ k+1) ∧
    (∀ c ∈ (Chunk (k+1) l).dropLast, c.length = k+1) := by
  have h0 : ([] : List α).length < k+1 := by simp
  refine ⟨?_, ?_, ?_, ?_⟩
  · have h := chunkRun_length (k+1) (Nat.succ_pos k) l [] h0
    rw [List.length_nil] at h
    simpa [Chunk] using h
  · have h := chunkRun_flatten (k+1) l [] h0
    rw [List.length_nil] at h
    simpa [Chunk] using h
  · have h := chunkRun_sizes (k+1) l [] h0
    rw [List.length_nil] at h
    simpa [Chunk] using h
  · have h := chunkRun_dropLast (k+1) l [] h0
    rw [List.length_nil] at h
    simpa [Chunk] using h

/-- Witness for C10 at a concrete input: three items with chunk size two
give two invocations whose concatenation is the input. -/
theorem claim_C10_witness :
    (Chunk 2 [1, 2, 3]).length = 2 ∧ (Chunk 2 [1, 2, 3]).flatten = [1, 2, 3] :=
  ⟨(claim_C10 1 [1, 2, 3]).1, (claim_C10 1 [1, 2, 3]).2.1⟩

end Kit
